import Mathlib

/-!
Shallow embedding of the GameXplorer upstream API gateway
(`src/app/api/server/igdb.ts` and the `/api/igdb/query` route handler),
with theorems settling the specified properties of the admission
controller, retry loop, response normalizer, and dispatch layer.

Times are in milliseconds (`Nat`); fractional token-bucket arithmetic is
modelled with `Rat` (the source uses JS floating-point division, whose
values here are exactly representable).
-/

namespace GameXplorer

/-! ## Admission controller (token bucket + concurrency semaphore)

Embedding of `refillTokens` / `waitForSlot` / `releaseSlot` from
`src/app/api/server/igdb.ts` (lines 17–52).  `waitForSlot` is a polling
loop; one poll iteration (refill, then the admission check and the
atomic decrement/increment) is modelled by `tryAcquire`, which returns
`none` when the caller would sleep 100 ms and re-poll. -/

/-- `RATE_LIMIT = 4` tokens per second. -/
def RATE_LIMIT : ℚ := 4

/-- `CAPACITY = RATE_LIMIT`. -/
def CAPACITY : ℚ := RATE_LIMIT

/-- `MAX_INFLIGHT = 8`. -/
def MAX_INFLIGHT : ℕ := 8

/-- The module-level mutable admission state: `tokens`, `lastRefill`
(`Date.now()` in ms), `inFlight`. -/
structure AdmissionState where
  tokens : ℚ
  lastRefill : ℕ
  inFlight : ℕ
  deriving DecidableEq, Repr

/-- Initial module state: `tokens = CAPACITY`, `inFlight = 0`,
`lastRefill = Date.now()` at load time. -/
def initAdmission (now : ℕ) : AdmissionState :=
  { tokens := CAPACITY, lastRefill := now, inFlight := 0 }

/-- `refillTokens()`: adds `(elapsedMs / 1000) * RATE_LIMIT` tokens,
capped at `CAPACITY`; does nothing when no time has elapsed. -/
def refillTokens (now : ℕ) (s : AdmissionState) : AdmissionState :=
  if now ≤ s.lastRefill then s
  else
    let elapsedMs : ℚ := (now : ℚ) - (s.lastRefill : ℚ)
    let add : ℚ := (elapsedMs / 1000) * RATE_LIMIT
    if 0 < add then
      { s with tokens := min CAPACITY (s.tokens + add), lastRefill := now }
    else s

/-- One poll iteration of `waitForSlot()`: refill, then admit (consume a
token, bump `inFlight`) when `tokens ≥ 1 ∧ inFlight < MAX_INFLIGHT`;
otherwise the caller sleeps and re-polls (`none`). -/
def tryAcquire (now : ℕ) (s : AdmissionState) : Option AdmissionState :=
  let s' := refillTokens now s
  if 1 ≤ s'.tokens ∧ s'.inFlight < MAX_INFLIGHT then
    some { s' with tokens := s'.tokens - 1, inFlight := s'.inFlight + 1 }
  else none

/-- `releaseSlot()`: `inFlight = Math.max(0, inFlight - 1)` (truncated
subtraction on `ℕ`); the rate-limit token is not refunded. -/
def releaseSlot (s : AdmissionState) : AdmissionState :=
  { s with inFlight := s.inFlight - 1 }

/-- The admission-state invariant from the spec's data model. -/
def AdmissionInv (s : AdmissionState) : Prop :=
  0 ≤ s.tokens ∧ s.tokens ≤ CAPACITY ∧ s.inFlight ≤ MAX_INFLIGHT

instance (s : AdmissionState) : Decidable (AdmissionInv s) := by
  unfold AdmissionInv; infer_instance

/-- Issue `n` acquire calls at one instant `now`, counting how many are
admitted immediately (none of the rejected callers is admitted since no
time passes between polls). -/
def burstAdmit (now : ℕ) (s : AdmissionState) : ℕ → ℕ × AdmissionState
  | 0 => (0, s)
  | n + 1 =>
    match tryAcquire now s with
    | some s' =>
      let r := burstAdmit now s' n
      (r.1 + 1, r.2)
    | none => (0, s)

/-! ## Upstream client retry loop

Embedding of the `while (true)` retry loop of `igdb()` (lines 88–141).
The simulated upstream is a script: one `Resp` per fetch attempt
(`Resp.network` is a fetch/parse throw with no HTTP response).  The
result records the outcome, the backoff waits performed (ms, in order)
and the number of fetch attempts.  Faithful detail: the `throw`s for a
terminal 429 and for a non-retryable status sit inside the `try`, so
they are routed through the `catch (err)` clause, which retries any
error while `attempt <= maxRetries` with `300 * 2^(attempt-1)` backoff
and rethrows otherwise. -/

/-- One scripted upstream fetch outcome. `retryAfter` is the
`retry-after` header value (seconds) when present; `body` abstracts the
response body/payload. -/
inductive Resp where
  | http (status : ℕ) (retryAfter : Option ℕ) (body : ℕ)
  | network
  deriving DecidableEq, Repr

/-- Terminal error of the retry loop: an HTTP-status-carrying `Error`
(message embeds status and body text) or a transport error. -/
inductive IgdbErr where
  | http (status : ℕ) (body : ℕ)
  | transport
  deriving DecidableEq, Repr

/-- Result of running the retry loop: outcome, backoff waits (ms, in
order), number of fetch attempts made. -/
structure RunResult where
  result : Except IgdbErr ℕ
  waits : List ℕ
  attempts : ℕ
  deriving Repr

/-- `maxRetries = 3`. -/
def maxRetries : ℕ := 3

/-- The retry loop body, one recursive step per attempt.  `attempt` is
the counter value before `attempt += 1` runs.  An exhausted script
models `fetch` throwing (caught by the same `catch`). -/
def retryLoop (attempt : ℕ) : List Resp → RunResult
  | [] =>
    let a := attempt + 1
    if h : a ≤ maxRetries then
      let r := retryLoop a []
      ⟨r.result, 300 * 2 ^ (a - 1) :: r.waits, r.attempts + 1⟩
    else ⟨.error .transport, [], 1⟩
  | r :: rest =>
    let a := attempt + 1
    match r with
    | .http st ra b =>
      if 200 ≤ st ∧ st < 300 then ⟨.ok b, [], 1⟩
      else if st = 429 then
        let waitMs := match ra with
          | some v => v * 1000
          | none => 500 * 2 ^ (a - 1)
        if a ≤ maxRetries then
          let r' := retryLoop a rest
          ⟨r'.result, waitMs :: r'.waits, r'.attempts + 1⟩
        else ⟨.error (.http 429 b), [], 1⟩
      else if 500 ≤ st ∧ st < 600 ∧ a ≤ maxRetries then
        let r' := retryLoop a rest
        ⟨r'.result, 500 * 2 ^ (a - 1) :: r'.waits, r'.attempts + 1⟩
      else
        -- `throw new Error("IGDB error: ...")` lands in `catch (err)`
        if a ≤ maxRetries then
          let r' := retryLoop a rest
          ⟨r'.result, 300 * 2 ^ (a - 1) :: r'.waits, r'.attempts + 1⟩
        else ⟨.error (.http st b), [], 1⟩
    | .network =>
      if a ≤ maxRetries then
        let r' := retryLoop a rest
        ⟨r'.result, 300 * 2 ^ (a - 1) :: r'.waits, r'.attempts + 1⟩
      else ⟨.error .transport, [], 1⟩
termination_by l => l.length * 5 + (maxRetries + 1 - attempt)
decreasing_by
  all_goals simp_wf; simp_all [maxRetries]; omega

/-- `igdb()`'s retry sequence for one logical call, starting at
`attempt = 0`. -/
def runIgdb (script : List Resp) : RunResult :=
  retryLoop 0 script

/-- The full `igdb()` call shape: `waitForSlot()` (here: taking an
already-granted poll iteration), then the retry loop, then
`releaseSlot()` in `finally`.  Returns `none` when the admission check
rejects and the caller keeps polling. -/
def igdbCall (now : ℕ) (s : AdmissionState) (script : List Resp) :
    Option (RunResult × AdmissionState) :=
  match tryAcquire now s with
  | none => none
  | some s₁ => some (runIgdb script, releaseSlot s₁)

/-! ## Image URL normalization

Embedding of `formatIGDBImage(url?, size = "t_cover_big")` (lines
148–152).  Strings are lists of characters.  The JS regex
`/t_[^\x7b/\x7d]+/`-style pattern `t_[^/]+` is leftmost-first and
greedy; `String.prototype.replace` with a non-global regex replaces
only the first match.  JS `!url` is true both for `undefined` and for
the empty string. -/

/-- Replace the first (leftmost, greedy) match of `t_[^/]+` by `size`;
identity when there is no match. -/
def replaceToken (size : List Char) : List Char → List Char
  | 't' :: '_' :: c :: rest =>
    if c = '/' then 't' :: replaceToken size ('_' :: c :: rest)
    else size ++ (c :: rest).dropWhile (fun ch => ch ≠ '/')
  | x :: xs => x :: replaceToken size xs
  | [] => []

/-- `formatIGDBImage`: empty string for a missing/empty URL; otherwise
upgrade a protocol-relative `//…` URL to `https://…` and substitute the
size token. -/
def formatIGDBImage (url : Option (List Char)) (size : List Char) : List Char :=
  match url with
  | none => []
  | some u =>
    if u = [] then []
    else
      let withProto := if u.take 2 = ['/', '/'] then 'h' :: 't' :: 't' :: 'p' :: 's' :: ':' :: u else u
      replaceToken size withProto

/-- The size tokens the route handler passes (`t_cover_big`,
`t_original`, `t_1080p`, `t_logo_med`): they start with `t_`, a third
character that is not `/`, and contain no `/`. -/
def GoodSize (size : List Char) : Prop :=
  (∃ c rest, size = 't' :: '_' :: c :: rest ∧ c ≠ '/') ∧ '/' ∉ size

/-! ## Route handler (`POST /api/igdb/query`)

Embeddings of the normalization and dispatch logic of the route
handler.  Game ids and numeric JSON values are `ℚ` (JS numbers of
interest here are exact); `Option ℚ` models a JS `Number(x)` result,
with `none` for non-finite results (`NaN`/`±Infinity`), so that
`Number.isFinite` is `Option.isSome`.  JS string truthiness: missing
(`none`) and empty strings are falsy. -/

/-- JS truthiness of an optional string value. -/
def truthyStr : Option (List Char) → Bool
  | none => false
  | some s => !s.isEmpty

/-- `Array.from(new Set(l))`: deduplication keeping the first
occurrence, preserving order. -/
def setDedup {α : Type} [DecidableEq α] (l : List α) : List α :=
  go [] l
where
  go : List α → List α → List α
  | _, [] => []
  | seen, x :: xs => if x ∈ seen then go seen xs else x :: go (x :: seen) xs

/-- An upstream `cover` / `platform_logo` object: a `url` field (absent
or a string) plus the object's other fields, abstracted as `ℕ`. -/
structure CoverObj where
  url : Option (List Char)
  cdata : ℕ
  deriving DecidableEq, Repr

/-- A raw upstream game record as the list queries consume it. -/
structure RawGame where
  id : ℚ
  cover : Option CoverObj
  data : ℕ
  deriving DecidableEq, Repr

/-- A normalized list-view game record: `cover` replaced by
`{ ...g.cover, url: formatIGDBImage(g.cover.url, "t_cover_big") }` when
the cover object is present, `null` otherwise. -/
structure NormGame where
  id : ℚ
  cover : Option (List Char × ℕ)
  data : ℕ
  deriving DecidableEq, Repr

/-- `t_cover_big`. -/
def sizeCoverBig : List Char := ['t', '_', 'c', 'o', 'v', 'e', 'r', '_', 'b', 'i', 'g']

/-- `t_original`. -/
def sizeOriginal : List Char := ['t', '_', 'o', 'r', 'i', 'g', 'i', 'n', 'a', 'l']

/-- `t_logo_med`. -/
def sizeLogoMed : List Char := ['t', '_', 'l', 'o', 'g', 'o', '_', 'm', 'e', 'd']

/-- The list-mode normalization
`{ ...g, cover: g.cover ? { ...g.cover, url: formatIGDBImage(g.cover.url, "t_cover_big") } : null }`. -/
def normalizeListGame (g : RawGame) : NormGame :=
  { id := g.id,
    cover := g.cover.map fun c => (formatIGDBImage c.url sizeCoverBig, c.cdata),
    data := g.data }

/-- `Map.get` on a `Map` built by `byId.set(key, value)` over the list
in order: the last insertion for a key wins. -/
def jsMapGet (l : List (ℚ × NormGame)) (k : ℚ) : Option NormGame :=
  (l.reverse.find? fun p => decide (p.1 = k)).map Prod.snd

/-- `prims.map(p => Number(p.game_id)).filter(n => Number.isFinite(n) && n > 0)`
then `Array.from(new Set(...))` (recommend popularity fallback, lines
548). -/
def jsNumIds (xs : List (Option ℚ)) : List ℚ :=
  setDedup ((xs.filterMap id).filter fun q => 0 < q)

/-- The candidate id list of the popularity-primitive fallback:
deduplicated filtered feed ids, `slice(0, limit)`. -/
def primIds (prims : List (Option ℚ)) (limit : ℕ) : List ℚ :=
  (jsNumIds prims).take limit

/-- The map-then-reorder step of the popularity-primitive fallback
(lines 557–564): build `byId` from the bulk-fetched games, then
`ids.map(id => byId.get(id)).filter(Boolean)`. -/
def primOrdered (ids : List ℚ) (games : List RawGame) : List NormGame :=
  let byId := games.map fun g => (g.id, normalizeListGame g)
  ids.filterMap fun i => jsMapGet byId i

/-- Bulk mode id scrub (line 470): ids arrive zod-validated as finite
integers, so `Number(n)` is the identity and `Number.isFinite` holds;
what remains is the positivity filter and the `Set` dedup. -/
def bulkIds (ids : List ℤ) : List ℤ :=
  setDedup (ids.filter fun x => 0 < x)

/-- Bulk mode outcome: the response id payload and the number of
upstream calls made.  An empty filtered list short-circuits to an empty
JSON array with no `igdb` call (line 471). -/
def bulkRun (ids : List ℤ) : List ℤ × ℕ :=
  let f := bulkIds ids
  if f = [] then ([], 0) else (f, 1)

/-- Detail-mode `similar_games` normalization (lines 614–616):
`Array.isArray ? arr.map(Number).filter(n => Number.isFinite(n) && n > 0) : []`. -/
def normalizeSimilar (sg : Option (List (Option ℚ))) : List ℚ :=
  match sg with
  | none => []
  | some xs => xs.filterMap fun o =>
      match o with
      | some q => if 0 < q then some q else none
      | none => none

/-- Detail-mode cover normalization (lines 594, 620):
`coverUrl = game.cover?.url ? formatIGDBImage(game.cover.url, "t_original") : null`,
`cover: game.cover ? { ...game.cover, url: coverUrl } : null`. -/
def detailCover (cover : Option CoverObj) : Option (Option (List Char) × ℕ) :=
  match cover with
  | none => none
  | some c =>
    some (if truthyStr c.url then some (formatIGDBImage c.url sizeOriginal) else none,
      c.cdata)

/-- Detail-mode platform logo normalization (line 608):
`logo_url: p.platform_logo?.url ? formatIGDBImage(p.platform_logo.url, "t_logo_med") : null`. -/
def platformLogoUrl (platform_logo : Option CoverObj) : Option (List Char) :=
  match platform_logo with
  | none => none
  | some l => if truthyStr l.url then some (formatIGDBImage l.url sizeLogoMed) else none

/-! ### Dispatch layer error mapping -/

/-- An error escaping to the route handler's `catch`: a validation
(zod) failure or an error thrown by `igdb`. -/
inductive RouteErr where
  | validation
  | upstream (e : IgdbErr)
  deriving DecidableEq, Repr

/-- A response body as the route emits it. -/
inductive RouteBody where
  | errJson (e : RouteErr)
  | nullBody
  | payload (b : ℕ)
  deriving DecidableEq, Repr

/-- An HTTP response: status and body.  An `errJson e` body is the JSON
error object `{ error: message }` whose message string embeds `e`
(including any upstream status code). -/
structure HttpOut where
  status : ℕ
  body : RouteBody
  deriving DecidableEq, Repr

/-- The route handler's `catch` (lines 640–643): every escaping error
becomes `{ error: message }` with status 400. -/
def dispatchCatch (e : RouteErr) : HttpOut :=
  { status := 400, body := .errJson e }

/-- Detail/recommend not-found response: `NextResponse.json(null, { status: 404 })`. -/
def notFoundOut : HttpOut :=
  { status := 404, body := .nullBody }

/-- End-to-end: run one `igdb` call against a scripted upstream and
route its outcome through the handler (success or `catch`). -/
def routeUpstream (script : List Resp) : HttpOut :=
  match (runIgdb script).result with
  | .ok b => { status := 200, body := .payload b }
  | .error e => dispatchCatch (.upstream e)

/-! ## Theorems: admission controller (C1) -/

lemma refillTokens_of_le (now : ℕ) (s : AdmissionState) (h : now ≤ s.lastRefill) :
    refillTokens now s = s := by
  simp [refillTokens, h]

lemma refillTokens_inFlight (now : ℕ) (s : AdmissionState) :
    (refillTokens now s).inFlight = s.inFlight := by
  unfold refillTokens
  split
  · rfl
  · dsimp only
    split <;> rfl

lemma admissionInv_refill (now : ℕ) (s : AdmissionState) (h : AdmissionInv s) :
    AdmissionInv (refillTokens now s) := by
  obtain ⟨h0, hc, hf⟩ := h
  unfold refillTokens
  split
  · exact ⟨h0, hc, hf⟩
  · dsimp only
    split
    · rename_i hlt hadd
      refine ⟨?_, ?_, hf⟩
      · have : (0 : ℚ) ≤ s.tokens + (((now : ℚ) - (s.lastRefill : ℚ)) / 1000) * RATE_LIMIT := by
          have := le_of_lt hadd
          linarith
        simp only [AdmissionState.mk.injEq]
        exact le_min (by norm_num [CAPACITY, RATE_LIMIT]) this
      · exact min_le_left _ _
    · exact ⟨h0, hc, hf⟩

lemma admissionInv_tryAcquire (now : ℕ) (s s' : AdmissionState) (h : AdmissionInv s)
    (hacq : tryAcquire now s = some s') : AdmissionInv s' := by
  unfold tryAcquire at hacq
  set r := refillTokens now s with hr
  have hrInv : AdmissionInv r := admissionInv_refill now s h
  by_cases hcond : 1 ≤ r.tokens ∧ r.inFlight < MAX_INFLIGHT
  · simp only [hcond, and_self, if_true, Option.some.injEq] at hacq
    obtain ⟨h1, h2⟩ := hcond
    obtain ⟨r0, rc, rf⟩ := hrInv
    subst hacq
    refine ⟨?_, ?_, ?_⟩
    · dsimp only; linarith
    · dsimp only
      have : (0 : ℚ) ≤ CAPACITY := by norm_num [CAPACITY, RATE_LIMIT]
      linarith
    · dsimp only; omega
  · simp [hcond] at hacq

lemma admissionInv_releaseSlot (s : AdmissionState) (h : AdmissionInv s) :
    AdmissionInv (releaseSlot s) := by
  obtain ⟨h0, hc, hf⟩ := h
  exact ⟨h0, hc, by simp [releaseSlot]; omega⟩

lemma tryAcquire_same_instant (now k : ℕ) (q : ℚ) (hq : 1 ≤ q) (hk : k < MAX_INFLIGHT) :
    tryAcquire now ⟨q, now, k⟩ = some ⟨q - 1, now, k + 1⟩ := by
  rw [tryAcquire, refillTokens_of_le now _ (le_refl now)]
  simp [hq, hk]

lemma tryAcquire_no_tokens (now k : ℕ) (q : ℚ) (hq : ¬ 1 ≤ q) :
    tryAcquire now ⟨q, now, k⟩ = none := by
  rw [tryAcquire, refillTokens_of_le now _ (le_refl now)]
  simp [hq]

lemma burstAdmit_run (now : ℕ) : ∀ (n k : ℕ), k ≤ 4 →
    burstAdmit now ⟨(4 : ℚ) - k, now, k⟩ n =
      (min n (4 - k), ⟨(4 : ℚ) - (k + min n (4 - k)), now, k + min n (4 - k)⟩) := by
  intro n
  induction n with
  | zero => intro k _; simp [burstAdmit]
  | succ n ih =>
    intro k hk
    by_cases hk4 : k < 4
    · have hq : (1 : ℚ) ≤ (4 : ℚ) - k := by
        have : (k : ℚ) ≤ 3 := by exact_mod_cast Nat.lt_succ_iff.mp (by omega)
        linarith
      have hstep := tryAcquire_same_instant now k ((4 : ℚ) - k) hq (by simp [MAX_INFLIGHT]; omega)
      have hcast : (4 : ℚ) - (k : ℚ) - 1 = (4 : ℚ) - ((k + 1 : ℕ) : ℚ) := by push_cast; ring
      rw [burstAdmit, hstep, hcast]
      dsimp only
      rw [ih (k + 1) (by omega)]
      have hmin : min n (4 - (k + 1)) + 1 = min (n + 1) (4 - k) := by omega
      dsimp only
      refine Prod.ext ?_ ?_
      · dsimp only; omega
      · dsimp only
        simp only [AdmissionState.mk.injEq]
        refine ⟨?_, trivial, by omega⟩
        rw [← hmin]
        push_cast
        ring
    · have hk4' : k = 4 := by omega
      subst hk4'
      have hq : ¬ (1 : ℚ) ≤ (4 : ℚ) - (4 : ℕ) := by norm_num
      rw [burstAdmit, tryAcquire_no_tokens now 4 _ hq]
      simp

/-- The admission state after a burst of at least 4 same-instant
acquire calls against a freshly full bucket. -/
lemma burstAdmit_full (now n : ℕ) (hn : 4 ≤ n) :
    burstAdmit now (initAdmission now) n = (4, ⟨0, now, 4⟩) := by
  have h0 : initAdmission now = ⟨(4 : ℚ) - (0 : ℕ), now, 0⟩ := by
    simp [initAdmission, CAPACITY, RATE_LIMIT]
  rw [h0, burstAdmit_run now n 0 (by omega)]
  have hm : min n (4 - 0) = 4 := by omega
  simp [hm]

lemma tryAcquire_after_burst (now e : ℕ) :
    (tryAcquire (now + e) ⟨0, now, 4⟩).isSome ↔ 250 ≤ e := by
  rcases Nat.eq_zero_or_pos e with he | he
  · subst he
    rw [show now + 0 = now from rfl, tryAcquire_no_tokens now 4 0 (by norm_num)]
    simp
  · have hlt : ¬ now + e ≤ (⟨(0 : ℚ), now, 4⟩ : AdmissionState).lastRefill := by
      simp; omega
    have hadd : (0 : ℚ) < ((((now + e : ℕ) : ℚ) - (now : ℚ)) / 1000) * RATE_LIMIT := by
      have : ((now + e : ℕ) : ℚ) - (now : ℚ) = (e : ℚ) := by push_cast; ring
      rw [this]
      have : (0 : ℚ) < (e : ℚ) := by exact_mod_cast he
      rw [RATE_LIMIT]
      positivity
    have harith : (0 : ℚ) + ((((now + e : ℕ) : ℚ) - (now : ℚ)) / 1000) * RATE_LIMIT
        = (e : ℚ) * 4 / 1000 := by
      rw [RATE_LIMIT]; push_cast; ring
    have hrefill : refillTokens (now + e) ⟨0, now, 4⟩
        = ⟨min CAPACITY ((e : ℚ) * 4 / 1000), now + e, 4⟩ := by
      unfold refillTokens
      rw [if_neg hlt, if_pos hadd, harith]
    rw [tryAcquire, hrefill]
    have hiff : (1 : ℚ) ≤ min CAPACITY ((e : ℚ) * 4 / 1000) ↔ 250 ≤ e := by
      rw [show CAPACITY = (4 : ℚ) from by norm_num [CAPACITY, RATE_LIMIT], le_min_iff]
      constructor
      · rintro ⟨-, h2⟩
        rw [le_div_iff₀ (by norm_num), one_mul] at h2
        have : (250 : ℚ) ≤ (e : ℚ) := by linarith
        exact_mod_cast this
      · intro h
        have h' : (250 : ℚ) ≤ (e : ℚ) := by exact_mod_cast h
        refine ⟨by norm_num, ?_⟩
        rw [le_div_iff₀ (by norm_num), one_mul]
        linarith
    by_cases hc : (1 : ℚ) ≤ min CAPACITY ((e : ℚ) * 4 / 1000)
    · rw [if_pos ⟨hc, by norm_num [MAX_INFLIGHT]⟩]
      simpa using hiff.mp hc
    · rw [if_neg (fun hco => hc hco.1)]
      simpa using fun h => hc (hiff.mpr h)

/-- C1: every admission-state step (token refill, admission in
`waitForSlot`, release in `releaseSlot`) preserves
`0 ≤ tokens ≤ CAPACITY (4)` and `0 ≤ inFlight ≤ 8`; and for any burst of
`n` acquire calls issued at one instant against a full bucket, exactly
`min n 4` are admitted immediately, and after at least 4 such calls the
next poll at `now + e` is admitted iff `250 ≤ e` ms of refill time have
elapsed. -/
theorem claim_C1_admission :
    (∀ now s, AdmissionInv s → AdmissionInv (refillTokens now s)) ∧
    (∀ now s s', AdmissionInv s → tryAcquire now s = some s' → AdmissionInv s') ∧
    (∀ s, AdmissionInv s → AdmissionInv (releaseSlot s)) ∧
    (∀ now n, (burstAdmit now (initAdmission now) n).1 = min n 4) ∧
    (∀ now n e, 4 ≤ n →
      ((tryAcquire (now + e) (burstAdmit now (initAdmission now) n).2).isSome ↔ 250 ≤ e)) := by
  refine ⟨admissionInv_refill, admissionInv_tryAcquire, admissionInv_releaseSlot, ?_, ?_⟩
  · intro now n
    have h0 : initAdmission now = ⟨(4 : ℚ) - ((0 : ℕ) : ℚ), now, 0⟩ := by
      simp [initAdmission, CAPACITY, RATE_LIMIT]
    rw [h0, burstAdmit_run now n 0 (by omega)]
  · intro now n e hn
    rw [burstAdmit_full now n hn]
    exact tryAcquire_after_burst now e

/-- Closed witness for C1 at concrete inputs. -/
theorem claim_C1_admission_witness :
    AdmissionInv (refillTokens 500 (initAdmission 0)) ∧
    AdmissionInv (releaseSlot (initAdmission 0)) ∧
    ((tryAcquire (0 + 250) (burstAdmit 0 (initAdmission 0) 6).2).isSome ↔ 250 ≤ 250) := by
  exact ⟨claim_C1_admission.1 500 (initAdmission 0)
      (by simp [AdmissionInv, initAdmission, CAPACITY, RATE_LIMIT, MAX_INFLIGHT]),
    claim_C1_admission.2.2.1 (initAdmission 0)
      (by simp [AdmissionInv, initAdmission, CAPACITY, RATE_LIMIT, MAX_INFLIGHT]),
    claim_C1_admission.2.2.2.2 0 6 250 (by simp)⟩

/-- C2: against an upstream answering 429 (no `retry-after`) on the
first three attempts and 200 on the fourth, `igdb` returns the parsed
200 payload after exactly 3 retries (4 attempts) with backoff waits
`500·2^(attempt-1)` ms = 500, 1000, 2000; with a `retry-after: ra`
header the wait is `ra` seconds (`ra·1000` ms); four consecutive 429s
exhaust the budget and surface a terminal error carrying the 429. -/
theorem claim_C2_retry_backoff (p b : ℕ) :
    runIgdb [.http 429 none b, .http 429 none b, .http 429 none b, .http 200 none p]
      = ⟨.ok p, [500, 1000, 2000], 4⟩ ∧
    (∀ ra : ℕ, runIgdb [.http 429 (some ra) b, .http 200 none p]
      = ⟨.ok p, [ra * 1000], 2⟩) ∧
    runIgdb [.http 429 none b, .http 429 none b, .http 429 none b, .http 429 none b]
      = ⟨.error (.http 429 b), [500, 1000, 2000], 4⟩ := by
  refine ⟨?_, ?_, ?_⟩
  · simp [runIgdb, retryLoop, maxRetries]
  · intro ra
    simp [runIgdb, retryLoop, maxRetries]
  · simp [runIgdb, retryLoop, maxRetries]

/-- C3 failing input: the code does NOT fail immediately on a
non-retryable status.  A 400 on the first attempt is routed through the
`catch` clause, waits a 300 ms backoff, and is retried: with a
subsequent 200 the call succeeds; four 400s surface the 400 only after
three backoff waits (300, 600, 1200 ms). -/
theorem claim_C3_status400_is_retried (b p : ℕ) :
    runIgdb [.http 400 none b, .http 200 none p] = ⟨.ok p, [300], 2⟩ ∧
    runIgdb [.http 400 none b, .http 400 none b, .http 400 none b, .http 400 none b]
      = ⟨.error (.http 400 b), [300, 600, 1200], 4⟩ := by
  refine ⟨?_, ?_⟩
  · simp [runIgdb, retryLoop, maxRetries]
  · simp [runIgdb, retryLoop, maxRetries]

/-- C4: a logical `igdb` call acquires exactly one admission permit up
front; the admission post-state is independent of the retry script and
its outcome (one permit covers the whole retry sequence); the
concurrency slot is released exactly once (net in-flight count returns
to its pre-acquire value); and the consumed rate-limit token is never
refunded (post tokens = refilled tokens − 1, whatever the outcome). -/
theorem claim_C4_single_permit (now : ℕ) (s s₁ : AdmissionState) (script : List Resp)
    (h : tryAcquire now s = some s₁) :
    igdbCall now s script = some (runIgdb script, releaseSlot s₁) ∧
    (releaseSlot s₁).inFlight = (refillTokens now s).inFlight ∧
    (releaseSlot s₁).tokens = (refillTokens now s).tokens - 1 ∧
    (∀ script' : List Resp,
      (igdbCall now s script').map Prod.snd = (igdbCall now s script).map Prod.snd) := by
  have hs₁ : s₁ = { refillTokens now s with
      tokens := (refillTokens now s).tokens - 1,
      inFlight := (refillTokens now s).inFlight + 1 } := by
    unfold tryAcquire at h
    by_cases hc : 1 ≤ (refillTokens now s).tokens ∧ (refillTokens now s).inFlight < MAX_INFLIGHT
    · simp only [hc, and_self, if_true, Option.some.injEq] at h
      exact h.symm
    · simp [hc] at h
  refine ⟨?_, ?_, ?_, ?_⟩
  · unfold igdbCall
    rw [h]
  · rw [hs₁]; simp [releaseSlot]
  · rw [hs₁]; simp [releaseSlot]
  · intro script'
    unfold igdbCall
    rw [h]
    rfl

/-- Closed witness for C4: a call admitted against the initial state. -/
theorem claim_C4_single_permit_witness :
    igdbCall 0 (initAdmission 0) [.http 200 none 7]
        = some (runIgdb [.http 200 none 7],
            releaseSlot ⟨CAPACITY - 1, 0, 1⟩) ∧
    (releaseSlot (⟨CAPACITY - 1, 0, 1⟩ : AdmissionState)).inFlight
        = (refillTokens 0 (initAdmission 0)).inFlight ∧
    (releaseSlot (⟨CAPACITY - 1, 0, 1⟩ : AdmissionState)).tokens
        = (refillTokens 0 (initAdmission 0)).tokens - 1 ∧
    (∀ script' : List Resp,
      (igdbCall 0 (initAdmission 0) script').map Prod.snd
        = (igdbCall 0 (initAdmission 0) [.http 200 none 7]).map Prod.snd) := by
  exact claim_C4_single_permit 0 (initAdmission 0) ⟨CAPACITY - 1, 0, 1⟩
    [.http 200 none 7]
    (by simp [tryAcquire, refillTokens, initAdmission, CAPACITY, RATE_LIMIT, MAX_INFLIGHT])

/-! ## Theorems: image URL normalization (C8) -/

lemma rt_match {size : List Char} {c : Char} {rest : List Char} (h : c ≠ '/') :
    replaceToken size ('t' :: '_' :: c :: rest)
      = size ++ (c :: rest).dropWhile (fun ch => ch ≠ '/') := by
  simp [replaceToken, h]

lemma rt_tslash {size : List Char} {rest : List Char} :
    replaceToken size ('t' :: '_' :: '/' :: rest)
      = 't' :: replaceToken size ('_' :: '/' :: rest) := by
  simp [replaceToken]

lemma rt_cons_ne {size : List Char} {x : Char} (hx : x ≠ 't') (v : List Char) :
    replaceToken size (x :: v) = x :: replaceToken size v := by
  simp [replaceToken, hx]

lemma rt_t_cons {size : List Char} {y : Char} (hy : y ≠ '_') (ys : List Char) :
    replaceToken size ('t' :: y :: ys) = 't' :: replaceToken size (y :: ys) := by
  simp [replaceToken, hy]

lemma rt_t_nil {size : List Char} : replaceToken size ['t'] = ['t'] := by
  simp [replaceToken]

lemma rt_tu_nil {size : List Char} : replaceToken size ['t', '_'] = ['t', '_'] := by
  simp [replaceToken]

lemma dropWhile_idem {α : Type} (p : α → Bool) (l : List α) :
    (l.dropWhile p).dropWhile p = l.dropWhile p := by
  induction l with
  | nil => simp
  | cons x xs ih =>
    by_cases hp : p x
    · simp [List.dropWhile_cons, hp, ih]
    · simp [List.dropWhile_cons, hp]

lemma dropWhile_append_sat {α : Type} (p : α → Bool) (a b : List α)
    (h : ∀ x ∈ a, p x) :
    (a ++ b).dropWhile p = b.dropWhile p := by
  induction a with
  | nil => simp
  | cons x xs ih =>
    have hx : p x := h x (List.mem_cons_self x xs)
    simp only [List.cons_append, List.dropWhile_cons, hx, if_true]
    exact ih fun y hy => h y (List.mem_cons_of_mem x hy)

lemma rt_head {size : List Char} {c₀ : Char} {s₀ : List Char}
    (hsz : size = 't' :: '_' :: c₀ :: s₀) (x : Char) (v : List Char) :
    (replaceToken size (x :: v)).head? = some x ∨
      (replaceToken size (x :: v)).head? = some 't' := by
  by_cases hx : x = 't'
  · subst hx
    right
    cases v with
    | nil => rw [rt_t_nil]; rfl
    | cons y ys =>
      by_cases hy : y = '_'
      · subst hy
        cases ys with
        | nil => rw [rt_tu_nil]; rfl
        | cons c rest =>
          by_cases hc : c = '/'
          · subst hc; rw [rt_tslash]; rfl
          · rw [rt_match hc, hsz]; rfl
      · rw [rt_t_cons hy]; rfl
  · left
    rw [rt_cons_ne hx]
    rfl

lemma rt_idem {size : List Char} (hGS : GoodSize size) (s : List Char) :
    replaceToken size (replaceToken size s) = replaceToken size s := by
  obtain ⟨⟨c₀, s₀, hsz, hc₀⟩, hns⟩ := hGS
  induction s using replaceToken.induct size with
  | case1 rest ih =>
    -- s = 't' :: '_' :: '/' :: rest
    have h1 : replaceToken size ('_' :: '/' :: rest)
        = '_' :: '/' :: replaceToken size rest := by
      rw [rt_cons_ne (by decide), rt_cons_ne (by decide)]
    rw [rt_tslash, h1, rt_tslash]
    rw [h1] at ih
    rw [ih]
  | case2 c rest hc =>
    -- s = 't' :: '_' :: c :: rest, c ≠ '/'
    rw [rt_match hc, hsz, List.cons_append, List.cons_append, List.cons_append,
      rt_match hc₀]
    have hdrop : (c₀ :: (s₀ ++ (c :: rest).dropWhile (fun ch => ch ≠ '/'))).dropWhile
        (fun ch => ch ≠ '/')
        = (c :: rest).dropWhile (fun ch => ch ≠ '/') := by
      rw [List.dropWhile_cons, if_pos (by simpa using hc₀)]
      rw [dropWhile_append_sat _ s₀ _ (fun y hy => by
        have : y ≠ '/' := by
          intro hcontra
          exact hns (by rw [hsz]; subst hcontra; simp [hy])
        simpa using this)]
      exact dropWhile_idem _ _
    rw [hdrop]
    simp
  | case3 x xs hno ih =>
    by_cases hx : x = 't'
    · subst hx
      cases xs with
      | nil => rw [rt_t_nil, rt_t_nil]
      | cons y ys =>
        by_cases hy : y = '_'
        · subst hy
          cases ys with
          | nil => rw [rt_tu_nil, rt_tu_nil]
          | cons c rest => exact absurd rfl (hno c rest rfl)
        · rw [rt_t_cons hy]
          cases hR : replaceToken size (y :: ys) with
          | nil => rw [rt_t_nil]
          | cons z zs =>
            have hz : z = y ∨ z = 't' := by
              rcases rt_head hsz y ys with h | h
              · left; rw [hR] at h; simpa using h
              · right; rw [hR] at h; simpa using h
            have hz' : z ≠ '_' := by
              rcases hz with h | h <;> subst h
              · exact hy
              · decide
            rw [rt_t_cons hz']
            rw [hR] at ih
            rw [ih]
    · rw [rt_cons_ne hx, rt_cons_ne hx, ih]
  | case4 => rfl

lemma rt_https (size v : List Char) :
    replaceToken size ('h' :: 't' :: 't' :: 'p' :: 's' :: ':' :: v)
      = 'h' :: 't' :: 't' :: 'p' :: 's' :: ':' :: replaceToken size v := by
  simp [replaceToken]

lemma fmt_protorel (size u : List Char) (hu : u.take 2 = ['/', '/']) :
    formatIGDBImage (some u) size
      = 'h' :: 't' :: 't' :: 'p' :: 's' :: ':' :: replaceToken size u := by
  have hne : u ≠ [] := by intro h; subst h; simp at hu
  simp only [formatIGDBImage]
  rw [if_neg hne]
  simp only [if_pos hu]
  rw [rt_https]

lemma fmt_not_protorel (size u : List Char) (hne : u ≠ []) (hu : u.take 2 ≠ ['/', '/']) :
    formatIGDBImage (some u) size = replaceToken size u := by
  simp only [formatIGDBImage]
  rw [if_neg hne]
  simp only [if_neg hu]

lemma take2_protorel (a : Char) (l : List Char) :
    (a :: l).take 2 = ['/', '/'] ↔ a = '/' ∧ l.head? = some '/' := by
  cases l <;> simp [List.take]

lemma rt_take2 {size : List Char} {c₀ : Char} {s₀ : List Char}
    (hsz : size = 't' :: '_' :: c₀ :: s₀) (u : List Char)
    (hu2 : u.take 2 ≠ ['/', '/']) : (replaceToken size u).take 2 ≠ ['/', '/'] := by
  cases u with
  | nil => simp [replaceToken]
  | cons x u2 =>
    by_cases hx : x = '/'
    · subst hx
      rw [rt_cons_ne (show ('/' : Char) ≠ 't' from by decide) u2]
      intro hcontra
      rw [take2_protorel] at hcontra
      obtain ⟨-, hh⟩ := hcontra
      cases u2 with
      | nil => simp [replaceToken] at hh
      | cons y ys =>
        have hy : y ≠ '/' := by
          intro h
          subst h
          exact hu2 ((take2_protorel _ _).mpr ⟨rfl, rfl⟩)
        rcases rt_head hsz y ys with h | h <;> rw [hh] at h <;> simp at h
        exact hy h.symm
    · cases hR : replaceToken size (x :: u2) with
      | nil => simp
      | cons z zs =>
        intro hcontra
        rw [take2_protorel] at hcontra
        obtain ⟨hz, -⟩ := hcontra
        subst hz
        rcases rt_head hsz x u2 with h | h <;> rw [hR] at h <;> simp at h
        exact hx h.symm

lemma rt_ne_nil {size : List Char} {c₀ : Char} {s₀ : List Char}
    (hsz : size = 't' :: '_' :: c₀ :: s₀) (x : Char) (v : List Char) :
    replaceToken size (x :: v) ≠ [] := by
  rcases rt_head hsz x v with h | h <;> intro hc <;> rw [hc] at h <;> simp at h

lemma fmt_ne_nil {size : List Char} {c₀ : Char} {s₀ : List Char}
    (hsz : size = 't' :: '_' :: c₀ :: s₀) (u : List Char) (hne : u ≠ []) :
    formatIGDBImage (some u) size ≠ [] := by
  by_cases hu2 : u.take 2 = ['/', '/']
  · rw [fmt_protorel size u hu2]
    simp
  · rw [fmt_not_protorel size u hne hu2]
    cases u with
    | nil => exact absurd rfl hne
    | cons x v => exact rt_ne_nil hsz x v

lemma fmt_idem (size u : List Char) (hGS : GoodSize size) :
    formatIGDBImage (some (formatIGDBImage (some u) size)) size
      = formatIGDBImage (some u) size := by
  obtain ⟨⟨c₀, s₀, hsz, hc₀⟩, hns⟩ := hGS
  by_cases hu : u = []
  · subst hu; simp [formatIGDBImage]
  · by_cases hu2 : u.take 2 = ['/', '/']
    · rw [fmt_protorel size u hu2]
      rw [fmt_not_protorel size _ (by simp)
        (by intro h; rw [take2_protorel] at h; simp at h)]
      rw [rt_https, rt_idem ⟨⟨c₀, s₀, hsz, hc₀⟩, hns⟩ u]
    · rw [fmt_not_protorel size u hu hu2]
      by_cases hv : replaceToken size u = []
      · rw [hv]; simp [formatIGDBImage]
      · rw [fmt_not_protorel size _ hv (rt_take2 hsz u hu2),
          rt_idem ⟨⟨c₀, s₀, hsz, hc₀⟩, hns⟩ u]

/-- C8: `formatIGDBImage` is total and idempotent: a missing or empty
URL yields the empty string; a protocol-relative or already-HTTPS URL
yields a URL starting with `https:` with the size token substituted
(concretely, `//img.example/t_thumb/co.jpg` with size `t_cover_big`
becomes `https://img.example/t_cover_big/co.jpg`); and applying the
function twice with the same size token equals applying it once. -/
theorem claim_C8_format_idempotent_total (size u : List Char) (hGS : GoodSize size) :
    formatIGDBImage none size = [] ∧
    formatIGDBImage (some []) size = [] ∧
    (u.take 2 = ['/', '/'] →
      (formatIGDBImage (some u) size).take 6 = ['h', 't', 't', 'p', 's', ':']) ∧
    (u.take 6 = ['h', 't', 't', 'p', 's', ':'] →
      (formatIGDBImage (some u) size).take 6 = ['h', 't', 't', 'p', 's', ':']) ∧
    formatIGDBImage (some ("//img.example/t_thumb/co.jpg".toList)) sizeCoverBig
      = "https://img.example/t_cover_big/co.jpg".toList ∧
    formatIGDBImage (some (formatIGDBImage (some u) size)) size
      = formatIGDBImage (some u) size := by
  refine ⟨rfl, by simp [formatIGDBImage], ?_, ?_, by decide, fmt_idem size u hGS⟩
  · intro hu2
    rw [fmt_protorel size u hu2]
    rfl
  · intro hu6
    have hu' : u = 'h' :: 't' :: 't' :: 'p' :: 's' :: ':' :: u.drop 6 := by
      conv_lhs => rw [← List.take_append_drop 6 u]
      rw [hu6]
      rfl
    rw [fmt_not_protorel size u (by rw [hu']; simp)
      (by rw [hu']; intro h; rw [take2_protorel] at h; simp at h), hu', rt_https]
    rfl

/-- Closed witness for C8 at `size = t_cover_big` and a concrete
protocol-relative URL. -/
theorem claim_C8_format_witness :
    formatIGDBImage none sizeCoverBig = [] ∧
    formatIGDBImage (some []) sizeCoverBig = [] ∧
    (("//a/t_x/y.jpg".toList).take 2 = ['/', '/'] →
      (formatIGDBImage (some ("//a/t_x/y.jpg".toList)) sizeCoverBig).take 6
        = ['h', 't', 't', 'p', 's', ':']) ∧
    (("//a/t_x/y.jpg".toList).take 6 = ['h', 't', 't', 'p', 's', ':'] →
      (formatIGDBImage (some ("//a/t_x/y.jpg".toList)) sizeCoverBig).take 6
        = ['h', 't', 't', 'p', 's', ':']) ∧
    formatIGDBImage (some ("//img.example/t_thumb/co.jpg".toList)) sizeCoverBig
      = "https://img.example/t_cover_big/co.jpg".toList ∧
    formatIGDBImage (some (formatIGDBImage (some ("//a/t_x/y.jpg".toList)) sizeCoverBig))
        sizeCoverBig
      = formatIGDBImage (some ("//a/t_x/y.jpg".toList)) sizeCoverBig :=
  claim_C8_format_idempotent_total sizeCoverBig ("//a/t_x/y.jpg".toList)
    ⟨⟨'c', ['o', 'v', 'e', 'r', '_', 'b', 'i', 'g'], rfl, by decide⟩, by decide⟩

/-! ## Theorems: dispatch error mapping (C5), similar_games (C7), bulk (C9) -/

/-- C5 counterexample: a 429 surviving retry exhaustion reaches the
caller with HTTP status 400 — not the original 429 nor any 5xx/502
status, contradicting the claimed status mapping for upstream
failures. -/
theorem claim_C5_counterexample :
    (routeUpstream [.http 429 none 9, .http 429 none 9, .http 429 none 9,
        .http 429 none 9]).status = 400 ∧
    ¬ ((routeUpstream [.http 429 none 9, .http 429 none 9, .http 429 none 9,
        .http 429 none 9]).status = 429 ∨
      (500 ≤ (routeUpstream [.http 429 none 9, .http 429 none 9, .http 429 none 9,
        .http 429 none 9]).status ∧
        (routeUpstream [.http 429 none 9, .http 429 none 9, .http 429 none 9,
          .http 429 none 9]).status < 600)) := by
  constructor
  · simp [routeUpstream, runIgdb, retryLoop, maxRetries, dispatchCatch]
  · intro h
    rcases h with h | ⟨h, -⟩
    · simp [routeUpstream, runIgdb, retryLoop, maxRetries, dispatchCatch] at h
    · simp [routeUpstream, runIgdb, retryLoop, maxRetries, dispatchCatch] at h

/-- C5 amended: every error escaping the route handler — bad input and
upstream failures alike (429, 5xx, transport, after retry exhaustion) —
is returned as a JSON error object with HTTP status 400, the upstream
status preserved only inside the message; a missing entity on
detail/recommend yields a null body with status 404. -/
theorem claim_C5_error_mapping (b : ℕ) (e : RouteErr) :
    dispatchCatch e = ⟨400, .errJson e⟩ ∧
    notFoundOut = ⟨404, .nullBody⟩ ∧
    routeUpstream [.http 429 none b, .http 429 none b, .http 429 none b, .http 429 none b]
      = ⟨400, .errJson (.upstream (.http 429 b))⟩ ∧
    routeUpstream [.http 500 none b, .http 500 none b, .http 500 none b, .http 500 none b]
      = ⟨400, .errJson (.upstream (.http 500 b))⟩ ∧
    routeUpstream [.network, .network, .network, .network]
      = ⟨400, .errJson (.upstream .transport)⟩ := by
  refine ⟨rfl, rfl, ?_, ?_, ?_⟩ <;>
    simp [routeUpstream, runIgdb, retryLoop, maxRetries, dispatchCatch]

/-- C7 counterexample: detail-mode `similar_games` normalization does
not deduplicate — the upstream array `[5, 5]` normalizes to `[5, 5]`,
in which the id 5 occurs twice. -/
theorem claim_C7_counterexample :
    normalizeSimilar (some [some 5, some 5]) = [5, 5] ∧
    ¬ (normalizeSimilar (some [some 5, some 5])).Nodup := by
  constructor
  · simp [normalizeSimilar]
  · intro h
    rw [show normalizeSimilar (some [some 5, some 5]) = [5, 5] by simp [normalizeSimilar]] at h
    simp at h

/-- C7 amended: detail-mode `similar_games` is the upstream array with
every non-finite (`none`) or non-positive element dropped, preserving
order and multiplicity — every surviving element is positive, but
duplicates are retained. -/
theorem claim_C7_similar_filter :
    (∀ sg x, x ∈ normalizeSimilar sg → 0 < x) ∧
    (∀ xs, normalizeSimilar (some (none :: xs)) = normalizeSimilar (some xs)) ∧
    (∀ xs (q : ℚ), ¬ 0 < q →
      normalizeSimilar (some (some q :: xs)) = normalizeSimilar (some xs)) ∧
    (∀ xs (q : ℚ), 0 < q →
      normalizeSimilar (some (some q :: xs)) = q :: normalizeSimilar (some xs)) ∧
    normalizeSimilar none = [] := by
  refine ⟨?_, ?_, ?_, ?_, rfl⟩
  · rintro (_ | xs) x hx
    · simp [normalizeSimilar] at hx
    · simp only [normalizeSimilar, List.mem_filterMap] at hx
      obtain ⟨o, -, ho⟩ := hx
      cases o with
      | none => simp at ho
      | some q =>
        by_cases hq : 0 < q
        · simp only [hq, if_pos] at ho
          obtain rfl := Option.some.inj ho
          exact hq
        · simp [hq] at ho
  · intro xs
    simp [normalizeSimilar]
  · intro xs q hq
    simp [normalizeSimilar, hq]
  · intro xs q hq
    simp [normalizeSimilar, hq]

/-- Closed witness for C7's amended statement at concrete inputs. -/
theorem claim_C7_similar_filter_witness :
    (0 : ℚ) < 5 ∧
    normalizeSimilar (some [some (-3 : ℚ)]) = normalizeSimilar (some []) ∧
    normalizeSimilar (some [some (5 : ℚ)]) = 5 :: normalizeSimilar (some []) :=
  ⟨claim_C7_similar_filter.1 (some [some 5]) 5 (by simp [normalizeSimilar]),
    claim_C7_similar_filter.2.2.1 [] (-3) (by norm_num),
    claim_C7_similar_filter.2.2.2.1 [] 5 (by norm_num)⟩

/-- C9: a bulk request whose id list contains no positive id filters to
the empty list, and the handler answers with an empty JSON array while
performing zero upstream calls. -/
theorem claim_C9_bulk_empty (ids : List ℤ) (h : ∀ x ∈ ids, ¬ 0 < x) :
    bulkRun ids = ([], 0) := by
  have hf : ids.filter (fun x => decide (0 < x)) = [] := by
    rw [List.filter_eq_nil_iff]
    intro a ha
    simpa using h a ha
  unfold bulkRun bulkIds
  rw [hf]
  rfl

/-- Closed witness for C9: the id list `[-1, 0]`. -/
theorem claim_C9_bulk_empty_witness : bulkRun [-1, 0] = ([], 0) :=
  claim_C9_bulk_empty [-1, 0] (by decide)

/-! ## Theorems: recommend popularity-fallback reordering (C6) -/

lemma jsMapGet_id (gs : List RawGame) (i : ℚ) (v : NormGame)
    (h : jsMapGet (gs.map fun g => (g.id, normalizeListGame g)) i = some v) :
    v.id = i := by
  unfold jsMapGet at h
  cases hfind : ((gs.map fun g => (g.id, normalizeListGame g)).reverse.find?
      fun p => decide (p.1 = i)) with
  | none => rw [hfind] at h; simp at h
  | some p =>
    rw [hfind] at h
    have h1 : p.1 = i := by simpa using List.find?_some hfind
    have h2 := List.mem_of_find?_eq_some hfind
    rw [List.mem_reverse, List.mem_map] at h2
    obtain ⟨g, -, rfl⟩ := h2
    obtain rfl : v = normalizeListGame g := by simpa using h.symm
    simpa [normalizeListGame] using h1

lemma jsMapGet_isSome (gs : List RawGame) (i : ℚ) :
    (jsMapGet (gs.map fun g => (g.id, normalizeListGame g)) i).isSome = true
      ↔ i ∈ gs.map RawGame.id := by
  unfold jsMapGet
  rw [Option.isSome_map', List.find?_isSome]
  constructor
  · rintro ⟨p, hp, hpred⟩
    rw [List.mem_reverse, List.mem_map] at hp
    obtain ⟨g, hg, rfl⟩ := hp
    have hid : g.id = i := by simpa using hpred
    exact List.mem_map.mpr ⟨g, hg, hid⟩
  · intro hmem
    rw [List.mem_map] at hmem
    obtain ⟨g, hg, rfl⟩ := hmem
    refine ⟨(g.id, normalizeListGame g), ?_, by simp⟩
    rw [List.mem_reverse]
    exact List.mem_map.mpr ⟨g, hg, rfl⟩

lemma primOrdered_map_id (ids : List ℚ) (gs : List RawGame) :
    (primOrdered ids gs).map NormGame.id
      = ids.filter fun i => decide (i ∈ gs.map RawGame.id) := by
  unfold primOrdered
  induction ids with
  | nil => rfl
  | cons i is ih =>
    by_cases hmem : i ∈ gs.map RawGame.id
    · obtain ⟨v, hv⟩ := Option.isSome_iff_exists.mp ((jsMapGet_isSome gs i).mpr hmem)
      rw [List.filterMap_cons, hv, List.map_cons, ih, jsMapGet_id gs i v hv,
        List.filter_cons, if_pos (by simpa using hmem)]
    · have hnone : jsMapGet (gs.map fun g => (g.id, normalizeListGame g)) i = none := by
        cases hj : jsMapGet (gs.map fun g => (g.id, normalizeListGame g)) i with
        | none => rfl
        | some v =>
          exact absurd ((jsMapGet_isSome gs i).mp (by rw [hj]; rfl)) hmem
      rw [List.filterMap_cons, hnone, ih, List.filter_cons, if_neg (by simpa using hmem)]

/-- C6: in the popularity-primitive fallback branch, the bulk-fetched
records are re-ordered to match the primitive-feed id order: with feed
order `[30, 10, 20]` and a bulk fetch returning records for ids
`10, 20, 30` in any order, the result is ordered `[30, 10, 20]`. -/
theorem claim_C6_recommend_reorder (gs : List RawGame)
    (hperm : (gs.map RawGame.id).Perm [10, 20, 30]) :
    (primOrdered (primIds [some 30, some 10, some 20] 12) gs).map NormGame.id
      = [30, 10, 20] := by
  have hids : primIds [some 30, some 10, some 20] 12 = [30, 10, 20] := by
    norm_num [primIds, jsNumIds, setDedup, setDedup.go]
  rw [hids, primOrdered_map_id]
  have hmem : ∀ x ∈ ([30, 10, 20] : List ℚ), x ∈ gs.map RawGame.id := by
    intro x hx
    rw [hperm.mem_iff]
    simp only [List.mem_cons, List.not_mem_nil, or_false] at hx ⊢
    rcases hx with rfl | rfl | rfl <;> simp
  exact List.filter_eq_self.mpr fun a ha => by simpa using hmem a ha

/-- Closed witness for C6: fetch order `[10, 20, 30]`, feed order
`[30, 10, 20]`. -/
theorem claim_C6_recommend_reorder_witness :
    (primOrdered (primIds [some 30, some 10, some 20] 12)
        [⟨10, none, 0⟩, ⟨20, none, 0⟩, ⟨30, none, 0⟩]).map NormGame.id
      = [30, 10, 20] :=
  claim_C6_recommend_reorder [⟨10, none, 0⟩, ⟨20, none, 0⟩, ⟨30, none, 0⟩]
    (List.Perm.refl _)

/-! ## Theorems: detail-mode null vs empty-string image URLs (C10) -/

/-- C10: in detail mode, a present cover object (or platform_logo
object) with a missing or empty `url` yields `null` for `cover.url`
(resp. `logo_url`), never the empty string; `formatIGDBImage` returns
the empty string exactly when invoked on a missing/empty URL; and when
the `url` is truthy the normalized field holds the non-empty formatted
URL. -/
theorem claim_C10_detail_null_urls :
    (∀ c : CoverObj, c.url = none ∨ c.url = some [] →
      detailCover (some c) = some (none, c.cdata)) ∧
    (∀ l : CoverObj, l.url = none ∨ l.url = some [] →
      platformLogoUrl (some l) = none) ∧
    detailCover none = none ∧
    (∀ size, formatIGDBImage none size = [] ∧ formatIGDBImage (some []) size = []) ∧
    (∀ (c : CoverObj) (u : List Char), c.url = some u → u ≠ [] →
      detailCover (some c) = some (some (formatIGDBImage (some u) sizeOriginal), c.cdata)
        ∧ formatIGDBImage (some u) sizeOriginal ≠ []) ∧
    (∀ (l : CoverObj) (u : List Char), l.url = some u → u ≠ [] →
      platformLogoUrl (some l) = some (formatIGDBImage (some u) sizeLogoMed)
        ∧ formatIGDBImage (some u) sizeLogoMed ≠ []) := by
  refine ⟨?_, ?_, rfl, ?_, ?_, ?_⟩
  · rintro c (h | h) <;> simp [detailCover, truthyStr, h]
  · rintro l (h | h) <;> simp [platformLogoUrl, truthyStr, h]
  · intro size
    exact ⟨rfl, by simp [formatIGDBImage]⟩
  · intro c u hu hne
    refine ⟨by simp [detailCover, hu, truthyStr, hne], ?_⟩
    exact fmt_ne_nil (show sizeOriginal = 't' :: '_' :: 'o' ::
      ['r', 'i', 'g', 'i', 'n', 'a', 'l'] from rfl) u hne
  · intro l u hu hne
    refine ⟨by simp [platformLogoUrl, hu, truthyStr, hne], ?_⟩
    exact fmt_ne_nil (show sizeLogoMed = 't' :: '_' :: 'l' ::
      ['o', 'g', 'o', '_', 'm', 'e', 'd'] from rfl) u hne

/-- Closed witness for C10 at concrete cover/logo objects. -/
theorem claim_C10_detail_null_urls_witness :
    detailCover (some ⟨none, 3⟩) = some (none, 3) ∧
    platformLogoUrl (some ⟨some [], 4⟩) = none ∧
    (detailCover (some ⟨some ['x'], 5⟩)
        = some (some (formatIGDBImage (some ['x']) sizeOriginal), 5)
      ∧ formatIGDBImage (some ['x']) sizeOriginal ≠ []) ∧
    (platformLogoUrl (some ⟨some ['x'], 6⟩)
        = some (formatIGDBImage (some ['x']) sizeLogoMed)
      ∧ formatIGDBImage (some ['x']) sizeLogoMed ≠ []) :=
  ⟨claim_C10_detail_null_urls.1 ⟨none, 3⟩ (Or.inl rfl),
    claim_C10_detail_null_urls.2.1 ⟨some [], 4⟩ (Or.inr rfl),
    claim_C10_detail_null_urls.2.2.2.2.1 ⟨some ['x'], 5⟩ ['x'] rfl (by decide),
    claim_C10_detail_null_urls.2.2.2.2.2 ⟨some ['x'], 6⟩ ['x'] rfl (by decide)⟩

end GameXplorer
